import Mathlib

/-!
Verification development for the connection-establishment edge of the
linkerd2 proxy data plane: the connection-header framer
(`linkerd/connection-header/src/lib.rs`), the HTTP protocol sniffer
(`linkerd/proxy/http/src/detect.rs`), and the discovery-stream update
translation (`linkerd/proxy/api-resolve/src/resolve.rs`).

Byte streams are embedded as lists of read chunks (`List (List Nat)`): each
`read_buf` call delivers the next chunk whole; an empty chunk, or running out
of chunks, is a zero-length read (EOF).  Bytes are `Nat` (values < 256 on all
inputs of interest).  `BytesMut` is a `List Nat` plus an allocation-size
account: the buffer starts with a given allocation and grows minimally to fit
what is written; `advance` consumes from the front and reduces `capacity()`
accordingly, exactly as in `bytes::BytesMut`.  Timeouts and the async
executor are outside the model: every theorem describes the path in which
the read future wins the race (the timeout never fires).
-/

set_option maxRecDepth 20000

namespace ConnHeader

/-- `b"proxy.l5d.io/connect\r\n\r\n"` (24 bytes). -/
def PREFACE : List Nat :=
  [112, 114, 111, 120, 121, 46, 108, 53, 100, 46, 105, 111, 47,
   99, 111, 110, 110, 101, 99, 116, 13, 10, 13, 10]

/-- `PREFACE.len() + 4`. -/
def PREFACE_LEN : Nat := PREFACE.length + 4

/-- Initial allocation of the buffer used by `DetectHeader::detect`. -/
def BUFFER_CAPACITY : Nat := 65536

def u32Max : Nat := 4294967295

/-- LEB128 varint encoding, fuel-bounded so that it reduces definitionally;
`fuel ≥ n` always suffices since the value shrinks at every step. -/
def varintEncodeAux : Nat → Nat → List Nat
  | 0, n => [n % 128]
  | fuel + 1, n => if n < 128 then [n] else (n % 128 + 128) :: varintEncodeAux fuel (n / 128)

/-- LEB128 varint encoding, as used by the prost wire codec. -/
def varintEncode (n : Nat) : List Nat :=
  varintEncodeAux n n

/-- Varint decoding: returns the value and the remaining bytes. -/
def varintDecode : List Nat → Option (Nat × List Nat)
  | [] => none
  | b :: r =>
    if b < 128 then some (b, r)
    else
      match varintDecode r with
      | none => none
      | some (n, r2) => some ((b - 128) + 128 * n, r2)

/-- Big-endian 4-byte encoding of `n` (the `put_u32` back-fill). -/
def be32enc (n : Nat) : List Nat :=
  [n / 16777216 % 256, n / 65536 % 256, n / 256 % 256, n % 256]

/-- Big-endian 4-byte decoding (the `get_u32` read). -/
def be32dec : List Nat → Nat
  | [a, b, c, d] => ((a * 256 + b) * 256 + c) * 256 + d
  | _ => 0

/-- Modelled from the spec: the external collaborator's wire codec
(`prost`-generated `proto::Header { port: int32 = 1, name: string = 2 }`,
whose generated source is not under `src/`).  Fields equal to their default
(`0`, empty string) are skipped; fields are emitted in tag order; the name is
its UTF-8 byte sequence. -/
def protoEncode (port : Nat) (name : List Nat) : List Nat :=
  (if port = 0 then [] else 8 :: varintEncode port) ++
  (if name.isEmpty then [] else 18 :: (varintEncode name.length ++ name))

/-- Modelled from the spec: the message-decoding loop of the black-box codec.
Fields may appear in any order, later occurrences win, unknown fields are
skipped by wire type.  `fuel` bounds the iteration (each step consumes at
least one byte, so `bytes.length + 1` fuel always suffices). -/
def protoDecodeLoop : Nat → List Nat → Nat → List Nat → Option (Nat × List Nat)
  | _, [], port, name => some (port, name)
  | 0, _ :: _, _, _ => none
  | fuel + 1, b :: bs, port, name =>
    match varintDecode (b :: bs) with
    | none => none
    | some (key, r1) =>
      if key / 8 = 1 && key % 8 = 0 then
        match varintDecode r1 with
        | none => none
        | some (v, r2) => protoDecodeLoop fuel r2 v name
      else if key / 8 = 2 && key % 8 = 2 then
        match varintDecode r1 with
        | none => none
        | some (len, r2) =>
          if r2.length < len then none
          else protoDecodeLoop fuel (r2.drop len) port (r2.take len)
      else if key % 8 = 0 then
        match varintDecode r1 with
        | none => none
        | some (_, r2) => protoDecodeLoop fuel r2 port name
      else if key % 8 = 2 then
        match varintDecode r1 with
        | none => none
        | some (len, r2) =>
          if r2.length < len then none else protoDecodeLoop fuel (r2.drop len) port name
      else if key % 8 = 5 then
        if r1.length < 4 then none else protoDecodeLoop fuel (r1.drop 4) port name
      else if key % 8 = 1 then
        if r1.length < 8 then none else protoDecodeLoop fuel (r1.drop 8) port name
      else none

/-- `proto::Header::decode`: raw port value and name bytes. -/
def protoDecode (bytes : List Nat) : Option (Nat × List Nat) :=
  protoDecodeLoop (bytes.length + 1) bytes 0 []

def isAlphaNumByte (c : Nat) : Bool :=
  (48 ≤ c && c ≤ 57) || (65 ≤ c && c ≤ 90) || (97 ≤ c && c ≤ 122)

def isDnsLabel (l : List Nat) : Bool :=
  !l.isEmpty && l.length ≤ 63 && l.all (fun c => isAlphaNumByte c || c == 45)

/-- Modelled from the spec: `linkerd2_dns_name::Name::from_str` validation
(the crate is not under `src/`): a syntactically valid DNS-style name —
non-empty, at most 253 bytes, dot-separated labels of 1–63 alphanumeric or
hyphen characters. -/
def isDnsName (s : List Nat) : Bool :=
  !s.isEmpty && s.length ≤ 253 && (s.splitOn 46).all isDnsLabel

/-- The connection header: target port and optional logical name (the name is
carried as its byte sequence). -/
structure Header where
  port : Nat
  name : Option (List Nat)
deriving DecidableEq

inductive IoErr
  | invalidData
  | unexpectedEof
deriving DecidableEq

/-- `Header::decode`: protobuf-decode the message, reject a malformed message
or an invalid non-empty name, map an empty name to `none`, and truncate the
decoded `int32` port to 16 bits (`h.port as u16`). -/
def Header.decode (msg : List Nat) : Except IoErr Header :=
  match protoDecode msg with
  | none => .error .invalidData
  | some (port, name) =>
    if name.isEmpty then .ok ⟨port % 65536, none⟩
    else if isDnsName name then .ok ⟨port % 65536, some name⟩
    else .error .invalidData

/-- `Header::encode`: the structured message (port, and the name as a string,
empty when absent). -/
def Header.encodeMsg (h : Header) : List Nat :=
  protoEncode h.port (h.name.getD [])

/-- `Header::encode_prefaced` into a buffer already holding `buf`: append the
preface, a 4-byte placeholder, and the encoded message; then back-fill
`buf[PREFACE.len()..PREFACE_LEN]` (absolute offsets 24..28) with
`buf.len() - PREFACE_LEN` as a big-endian `u32`.  The source guards the
back-fill with `assert!(len <= u32::MAX)`; the failed assertion (a panic that
produces no output) is modelled as `Except.error`. -/
def Header.encode_prefaced (h : Header) (buf : List Nat) : Except Unit (List Nat) :=
  let full := buf ++ PREFACE ++ [0, 0, 0, 0] ++ h.encodeMsg
  let len := full.length - PREFACE_LEN
  if len ≤ u32Max then
    .ok (full.take PREFACE.length ++ be32enc len ++ full.drop PREFACE_LEN)
  else .error ()

/-- One `while buf.len() < target { read_buf }` loop: returns the buffer, the
unread chunks, and whether the target was reached (`false` = a zero-length
read happened first). -/
def readToLen (cs : List (List Nat)) (buf : List Nat) (target : Nat) :
    List Nat × List (List Nat) × Bool :=
  if buf.length ≥ target then (buf, cs, true)
  else
    match cs with
    | [] => (buf, [], false)
    | c :: rest => if c.isEmpty then (buf, rest, false) else readToLen rest (buf ++ c) target

deriving instance DecidableEq for Except

/-- Result of `Header::read_prefaced`: the `io::Result<Option<Header>>`, the
caller's buffer contents on return, and the unread chunks of the stream. -/
structure PrefacedOutcome where
  result : Except IoErr (Option Header)
  buf : List Nat
  rest : List (List Nat)
deriving DecidableEq

/-- `Header::read_prefaced` on a buffer whose initial allocation is `cap`
bytes.  Reads until `PREFACE_LEN` bytes are buffered (EOF ⇒ `Ok(None)`),
checks the preface (mismatch ⇒ `Ok(None)`, nothing consumed), advances past
preface and length, rejects a declared length above
`buf.capacity() + PREFACE_LEN` — at that point the allocation is
`max cap buf₁.length` and 28 bytes have been advanced, so `capacity()` is
that allocation minus `PREFACE_LEN` — then reads the full message (EOF ⇒
`UnexpectedEof`), splits it off and decodes it, leaving the remaining bytes
in the caller's buffer. -/
def Header.read_prefaced (cap : Nat) (cs : List (List Nat)) : PrefacedOutcome :=
  let p1 := readToLen cs [] PREFACE_LEN
  let buf1 := p1.1
  let rest1 := p1.2.1
  if p1.2.2 = false then ⟨.ok none, buf1, rest1⟩
  else if buf1.take PREFACE.length ≠ PREFACE then ⟨.ok none, buf1, rest1⟩
  else
    let msgLen := be32dec ((buf1.drop PREFACE.length).take 4)
    let buf2 := buf1.drop PREFACE_LEN
    if msgLen > (max cap buf1.length - PREFACE_LEN) + PREFACE_LEN then
      ⟨.error .invalidData, buf2, rest1⟩
    else
      let p2 := readToLen rest1 buf2 msgLen
      if p2.2.2 = false then ⟨.error .unexpectedEof, p2.1, p2.2.1⟩
      else
        match Header.decode (p2.1.take msgLen) with
        | .error e => ⟨.error e, p2.1.drop msgLen, p2.2.1⟩
        | .ok h => ⟨.ok (some h), p2.1.drop msgLen, p2.2.1⟩

inductive Reason
  | noPreface
  | timeout
deriving DecidableEq

/-- `Conditional<Header, Reason>`. -/
inductive ConditionalHeader
  | found (h : Header)
  | absent (r : Reason)
deriving DecidableEq

/-- `DetectHeader::detect` (timeout not firing): run `read_prefaced` with a
fresh `BUFFER_CAPACITY`-byte buffer and wrap the outcome: a decoded header or
`None(NoPreface)`, plus the replay buffer and the unread stream; errors
propagate. -/
def DetectHeader.detect (cs : List (List Nat)) :
    Except IoErr (ConditionalHeader × List Nat × List (List Nat)) :=
  let o := Header.read_prefaced BUFFER_CAPACITY cs
  match o.result with
  | .ok (some h) => .ok (.found h, o.buf, o.rest)
  | .ok none => .ok (.absent .noPreface, o.buf, o.rest)
  | .error e => .error e

end ConnHeader

namespace ConnHeader

theorem PREFACE_length : PREFACE.length = 24 := rfl

theorem PREFACE_LEN_eq : PREFACE_LEN = 28 := rfl

theorem varintDecode_encodeAux (fuel : Nat) : ∀ (n : Nat) (t : List Nat), n ≤ fuel →
    varintDecode (varintEncodeAux fuel n ++ t) = some (n, t) := by
  induction fuel with
  | zero =>
    intro n t hn
    have : n = 0 := by omega
    subst this
    simp [varintEncodeAux, varintDecode]
  | succ fuel ih =>
    intro n t hn
    by_cases h : n < 128
    · simp [varintEncodeAux, h, varintDecode]
    · have hrec := ih (n / 128) t (by omega)
      have hb : ¬ (n % 128 + 128 < 128) := by omega
      simp only [varintEncodeAux, if_neg h, List.cons_append, varintDecode, if_neg hb, hrec]
      have : n % 128 + 128 - 128 + 128 * (n / 128) = n := by omega
      rw [this]

theorem varintDecode_encode (n : Nat) (t : List Nat) :
    varintDecode (varintEncode n ++ t) = some (n, t) :=
  varintDecode_encodeAux n n t le_rfl

theorem varintEncodeAux_length_le (fuel : Nat) : ∀ (k n : Nat), n < 128 ^ (k + 1) →
    (varintEncodeAux fuel n).length ≤ k + 1 := by
  induction fuel with
  | zero => intro k n _; simp [varintEncodeAux]
  | succ fuel ih =>
    intro k n hk
    by_cases h : n < 128
    · simp [varintEncodeAux, h]
    · match k with
      | 0 => omega
      | k + 1 =>
        have hdiv : n / 128 < 128 ^ (k + 1) := by
          have h128 : (0:Nat) < 128 := by omega
          rw [Nat.div_lt_iff_lt_mul h128]
          calc n < 128 ^ (k + 2) := hk
            _ = 128 ^ (k + 1) * 128 := by ring
        have := ih k (n / 128) hdiv
        simp only [varintEncodeAux, if_neg h, List.length_cons]
        omega

theorem varintEncode_length_le (k n : Nat) (h : n < 128 ^ (k + 1)) :
    (varintEncode n).length ≤ k + 1 :=
  varintEncodeAux_length_le n k n h

theorem be32enc_length (n : Nat) : (be32enc n).length = 4 := rfl

theorem be32dec_encode (n : Nat) (h : n < 4294967296) : be32dec (be32enc n) = n := by
  simp only [be32enc, be32dec]
  omega

theorem readToLen_done (cs : List (List Nat)) (buf : List Nat) (target : Nat)
    (h : target ≤ buf.length) : readToLen cs buf target = (buf, cs, true) := by
  cases cs <;> rw [readToLen] <;> simp [h]

theorem readToLen_single (c : List Nat) (rest : List (List Nat)) (target : Nat)
    (h0 : 0 < target) (hc : target ≤ c.length) :
    readToLen (c :: rest) [] target = (c, rest, true) := by
  rw [readToLen]
  have hne : c.isEmpty = false := by
    cases c with
    | nil => simp at hc; omega
    | cons a l => rfl
  simp only [List.length_nil, ge_iff_le, List.nil_append]
  rw [if_neg (by omega), if_neg (by simp [hne])]
  exact readToLen_done rest c target hc

theorem readToLen_conserve : ∀ (cs : List (List Nat)) (buf : List Nat) (target : Nat),
    (readToLen cs buf target).1 ++ ((readToLen cs buf target).2.1).flatten =
      buf ++ cs.flatten := by
  intro cs
  induction cs with
  | nil =>
    intro buf t
    rw [readToLen]
    split <;> simp
  | cons c rest ih =>
    intro buf t
    rw [readToLen]
    split
    · simp
    · by_cases hc : c.isEmpty
      · have : c = [] := by simpa using hc
        simp [hc, this]
      · simp only [if_neg hc, ih (buf ++ c) t, List.flatten_cons, List.append_assoc]

theorem readToLen_nil_lt (buf : List Nat) (target : Nat) (h : buf.length < target) :
    readToLen [] buf target = (buf, [], false) := by
  rw [readToLen]
  simp [Nat.not_le_of_lt h]

theorem readToLen_cons_empty (c : List Nat) (rest : List (List Nat)) (buf : List Nat)
    (target : Nat) (h : buf.length < target) (hc : c.isEmpty = true) :
    readToLen (c :: rest) buf target = (buf, rest, false) := by
  rw [readToLen]
  simp [Nat.not_le_of_lt h, hc]

theorem readToLen_cons_step (c : List Nat) (rest : List (List Nat)) (buf : List Nat)
    (target : Nat) (h : buf.length < target) (hc : c.isEmpty = false) :
    readToLen (c :: rest) buf target = readToLen rest (buf ++ c) target := by
  rw [readToLen]
  simp [Nat.not_le_of_lt h, hc]

theorem readToLen_reached : ∀ (cs : List (List Nat)) (buf : List Nat) (target : Nat),
    (readToLen cs buf target).2.2 = true → target ≤ (readToLen cs buf target).1.length := by
  intro cs
  induction cs with
  | nil =>
    intro buf t h
    by_cases hge : t ≤ buf.length
    · rw [readToLen_done _ _ _ hge]
      exact hge
    · rw [readToLen_nil_lt _ _ (by omega)] at h
      simp at h
  | cons c rest ih =>
    intro buf t h
    by_cases hge : t ≤ buf.length
    · rw [readToLen_done _ _ _ hge]
      exact hge
    · cases hc : c.isEmpty with
      | true =>
        rw [readToLen_cons_empty _ _ _ _ (by omega) hc] at h
        simp at h
      | false =>
        rw [readToLen_cons_step _ _ _ _ (by omega) hc] at h ⊢
        exact ih (buf ++ c) t h

theorem readToLen_eof : ∀ (cs : List (List Nat)) (buf : List Nat) (target : Nat),
    buf.length + cs.flatten.length < target → (readToLen cs buf target).2.2 = false := by
  intro cs
  induction cs with
  | nil =>
    intro buf t h
    simp only [List.flatten_nil, List.length_nil, Nat.add_zero] at h
    rw [readToLen_nil_lt _ _ h]
  | cons c rest ih =>
    intro buf t h
    have hlen : c.length + rest.flatten.length = (c :: rest).flatten.length := by
      rw [List.flatten_cons, List.length_append]
    cases hc : c.isEmpty with
    | true =>
      rw [readToLen_cons_empty _ _ _ _ (by omega) hc]
    | false =>
      rw [readToLen_cons_step _ _ _ _ (by omega) hc]
      exact ih (buf ++ c) t (by rw [List.length_append]; omega)

theorem protoDecodeLoop_nil (fuel p : Nat) (nm : List Nat) :
    protoDecodeLoop fuel [] p nm = some (p, nm) := by
  cases fuel <;> rfl

theorem varintDecode_encode_nil (v : Nat) : varintDecode (varintEncode v) = some (v, []) := by
  have h := varintDecode_encode v []
  simpa using h

theorem protoDecodeLoop_name (fuel p : Nat) (name : List Nat) :
    protoDecodeLoop (fuel + 1) (18 :: (varintEncode name.length ++ name)) p [] =
      some (p, name) := by
  rw [protoDecodeLoop]
  have h18 : (18:Nat) < 128 := by omega
  simp only [varintDecode, if_pos h18, varintDecode_encode]
  norm_num
  exact protoDecodeLoop_nil fuel p name

theorem protoDecodeLoop_port_step (fuel v p : Nat) (rest nm : List Nat) :
    protoDecodeLoop (fuel + 1) (8 :: (varintEncode v ++ rest)) p nm =
      protoDecodeLoop fuel rest v nm := by
  rw [protoDecodeLoop]
  have h8 : (8:Nat) < 128 := by omega
  simp only [varintDecode, if_pos h8, varintDecode_encode]
  norm_num

theorem protoDecodeLoop_port_end (fuel v p : Nat) (nm : List Nat) :
    protoDecodeLoop (fuel + 1) (8 :: varintEncode v) p nm = some (v, nm) := by
  rw [protoDecodeLoop]
  have h8 : (8:Nat) < 128 := by omega
  simp only [varintDecode, if_pos h8, varintDecode_encode_nil]
  norm_num
  exact protoDecodeLoop_nil fuel v nm

theorem protoEncode_zero_name (name : List Nat) (hn : name.isEmpty = false) :
    protoEncode 0 name = 18 :: (varintEncode name.length ++ name) := by
  simp [protoEncode, hn]

theorem protoEncode_port_nil (port : Nat) (hp : port ≠ 0) :
    protoEncode port [] = 8 :: varintEncode port := by
  simp [protoEncode, hp]

theorem protoEncode_port_name (port : Nat) (name : List Nat) (hp : port ≠ 0)
    (hn : name.isEmpty = false) :
    protoEncode port name =
      8 :: (varintEncode port ++ (18 :: (varintEncode name.length ++ name))) := by
  simp [protoEncode, hp, hn]

theorem protoDecode_encode (port : Nat) (name : List Nat) :
    protoDecode (protoEncode port name) = some (port, name) := by
  cases hname : name.isEmpty with
  | true =>
    have hn : name = [] := by simpa using hname
    subst hn
    by_cases hp : port = 0
    · subst hp; rfl
    · rw [protoEncode_port_nil port hp]
      rw [protoDecode, List.length_cons]
      exact protoDecodeLoop_port_end _ port 0 []
  | false =>
    by_cases hp : port = 0
    · subst hp
      rw [protoEncode_zero_name name hname, protoDecode, List.length_cons]
      exact protoDecodeLoop_name _ 0 name
    · rw [protoEncode_port_name port name hp hname, protoDecode, List.length_cons]
      rw [protoDecodeLoop_port_step]
      rw [List.length_append, List.length_cons]
      rw [show (varintEncode port).length + ((varintEncode name.length ++ name).length + 1) =
        ((varintEncode port).length + (varintEncode name.length ++ name).length) + 1 by omega]
      exact protoDecodeLoop_name _ port name

theorem isDnsName_not_empty {s : List Nat} (h : isDnsName s = true) : s.isEmpty = false := by
  simp only [isDnsName, Bool.and_eq_true, Bool.not_eq_eq_eq_not, Bool.not_true] at h
  exact h.1.1

theorem isDnsName_length_le {s : List Nat} (h : isDnsName s = true) : s.length ≤ 253 := by
  simp only [isDnsName, Bool.and_eq_true, decide_eq_true_eq] at h
  exact h.1.2

theorem Header.decode_encodeMsg (h : Header) (hp : h.port < 65536)
    (hn : ∀ n, h.name = some n → isDnsName n = true) :
    Header.decode h.encodeMsg = .ok h := by
  obtain ⟨port, name⟩ := h
  have hp' : port < 65536 := hp
  have hmod : port % 65536 = port := Nat.mod_eq_of_lt hp'
  cases name with
  | none =>
    simp only [Header.encodeMsg, Option.getD_none, Header.decode, protoDecode_encode,
      List.isEmpty_nil, if_pos rfl, hmod]
    simp
  | some n =>
    have hv : isDnsName n = true := hn n rfl
    have hne : n.isEmpty = false := isDnsName_not_empty hv
    simp only [Header.encodeMsg, Option.getD_some, Header.decode, protoDecode_encode, hne,
      Bool.false_eq_true, if_false, if_pos hv, hmod]

theorem Header.encodeMsg_length_le (h : Header) (hp : h.port < 65536)
    (hn : ∀ n, h.name = some n → isDnsName n = true) : h.encodeMsg.length ≤ 260 := by
  obtain ⟨port, name⟩ := h
  have hp' : port < 65536 := hp
  have hport : (varintEncode port).length ≤ 3 := by
    refine varintEncode_length_le 2 port ?_
    calc port < 65536 := hp'
      _ < 128 ^ (2 + 1) := by norm_num
  cases name with
  | none =>
    by_cases hz : port = 0
    · subst hz
      simp [Header.encodeMsg, protoEncode]
    · simp only [Header.encodeMsg, Option.getD_none, protoEncode_port_nil port hz,
        List.length_cons]
      omega
  | some n =>
    have hv : isDnsName n = true := hn n rfl
    have hlen : n.length ≤ 253 := isDnsName_length_le hv
    have hvl : (varintEncode n.length).length ≤ 2 := by
      refine varintEncode_length_le 1 n.length ?_
      calc n.length ≤ 253 := hlen
        _ < 128 ^ (1 + 1) := by norm_num
    have hne : n.isEmpty = false := isDnsName_not_empty hv
    by_cases hz : port = 0
    · subst hz
      simp only [Header.encodeMsg, Option.getD_some, protoEncode_zero_name n hne,
        List.length_cons, List.length_append]
      omega
    · simp only [Header.encodeMsg, Option.getD_some, protoEncode_port_name port n hz hne,
        List.length_cons, List.length_append]
      omega

theorem encode_prefaced_full_length (h : Header) (buf : List Nat) :
    (buf ++ PREFACE ++ [0, 0, 0, 0] ++ h.encodeMsg).length =
      buf.length + 28 + h.encodeMsg.length := by
  simp [PREFACE_length]
  omega

theorem Header.encode_prefaced_eq (h : Header) (buf : List Nat)
    (hl : buf.length + h.encodeMsg.length ≤ u32Max) :
    h.encode_prefaced buf =
      .ok ((buf ++ PREFACE ++ [0, 0, 0, 0] ++ h.encodeMsg).take PREFACE.length ++
        be32enc (buf.length + h.encodeMsg.length) ++
        (buf ++ PREFACE ++ [0, 0, 0, 0] ++ h.encodeMsg).drop PREFACE_LEN) := by
  have hfl := encode_prefaced_full_length h buf
  have hsub : (buf ++ PREFACE ++ [0, 0, 0, 0] ++ h.encodeMsg).length - PREFACE_LEN =
      buf.length + h.encodeMsg.length := by
    rw [hfl, PREFACE_LEN_eq]
    omega
  simp only [Header.encode_prefaced, hsub, if_pos hl]

theorem Header.encode_prefaced_empty (h : Header) (hl : h.encodeMsg.length ≤ u32Max) :
    h.encode_prefaced [] = .ok (PREFACE ++ be32enc h.encodeMsg.length ++ h.encodeMsg) := by
  rw [Header.encode_prefaced_eq h [] (by simpa using hl)]
  have htake : (([] : List Nat) ++ PREFACE ++ [0, 0, 0, 0] ++ h.encodeMsg).take PREFACE.length
      = PREFACE := by
    rw [List.nil_append]
    rw [show PREFACE ++ [0, 0, 0, 0] ++ h.encodeMsg = PREFACE ++ ([0, 0, 0, 0] ++ h.encodeMsg)
      from List.append_assoc _ _ _]
    exact List.take_left _ _
  have hdrop : (([] : List Nat) ++ PREFACE ++ [0, 0, 0, 0] ++ h.encodeMsg).drop PREFACE_LEN
      = h.encodeMsg := by
    rw [List.nil_append]
    exact List.drop_left' (by simp [PREFACE_length, PREFACE_LEN])
  rw [htake, hdrop, List.length_nil, Nat.zero_add]

theorem Header.read_prefaced_encoded (cap : Nat) (h : Header) (suffix : List Nat)
    (hdec : Header.decode h.encodeMsg = .ok h) (hlen : h.encodeMsg.length < 4294967296) :
    Header.read_prefaced cap [PREFACE ++ be32enc h.encodeMsg.length ++ h.encodeMsg ++ suffix] =
      ⟨.ok (some h), suffix, []⟩ := by
  set msg := h.encodeMsg with hmsg
  set c := PREFACE ++ be32enc msg.length ++ msg ++ suffix with hc
  have hclen : c.length = 28 + msg.length + suffix.length := by
    rw [hc]
    simp [PREFACE_length, be32enc_length]
    omega
  have h1 : readToLen [c] [] PREFACE_LEN = (c, [], true) := by
    refine readToLen_single c [] PREFACE_LEN (by rw [PREFACE_LEN_eq]; omega) ?_
    rw [PREFACE_LEN_eq]
    omega
  have h2 : c.take PREFACE.length = PREFACE := rfl
  have h3 : (c.drop PREFACE.length).take 4 = be32enc msg.length := rfl
  have h4 : c.drop PREFACE_LEN = msg ++ suffix := rfl
  have h5 : be32dec (be32enc msg.length) = msg.length := be32dec_encode _ hlen
  have hcap : ¬ (msg.length > max cap c.length - PREFACE_LEN + PREFACE_LEN) := by
    have hmax : c.length ≤ max cap c.length := le_max_right _ _
    rw [PREFACE_LEN_eq]
    omega
  have h6 : readToLen [] (msg ++ suffix) msg.length = (msg ++ suffix, [], true) :=
    readToLen_done _ _ _ (by simp)
  have h7 : (msg ++ suffix).take msg.length = msg := List.take_left _ _
  have h8 : (msg ++ suffix).drop msg.length = suffix := List.drop_left _ _
  simp only [Header.read_prefaced, h1, h2, h3, h4, h5, h6, h7, h8, hdec]
  simp [hcap]

end ConnHeader

namespace ConnHeader

/-- C1: round-trip of the connection header.  For every header with a 16-bit
port and an optional syntactically valid DNS-style name, encoding with
`encode_prefaced` into an initially empty buffer succeeds, and
`read_prefaced` on a stream consisting of those bytes followed by any suffix
returns exactly that header, leaves exactly the suffix in the caller's replay
buffer, and consumes nothing further from the stream. -/
theorem c1_header_roundtrip (port : Nat) (name : Option (List Nat)) (suffix : List Nat)
    (hp : port < 65536) (hn : ∀ n, name = some n → isDnsName n = true) :
    ∃ out, Header.encode_prefaced ⟨port, name⟩ [] = .ok out ∧
      ∀ cap, Header.read_prefaced cap [out ++ suffix] =
        ⟨.ok (some ⟨port, name⟩), suffix, []⟩ := by
  set h : Header := ⟨port, name⟩ with hh
  have hlen : h.encodeMsg.length ≤ 260 := Header.encodeMsg_length_le h hp hn
  have henc := Header.encode_prefaced_empty h (by simp [u32Max]; omega)
  refine ⟨PREFACE ++ be32enc h.encodeMsg.length ++ h.encodeMsg, henc, ?_⟩
  intro cap
  have hdec : Header.decode h.encodeMsg = .ok h := Header.decode_encodeMsg h hp hn
  have := Header.read_prefaced_encoded cap h suffix hdec (by omega)
  simpa [List.append_assoc] using this

/-- Witness for C1 at the source test vector: port 4040, name
`foo.bar.example.com`, with the bytes `"12345"` appended after the header. -/
theorem c1_header_roundtrip_witness :
    (4040 < 65536 ∧
      isDnsName [102, 111, 111, 46, 98, 97, 114, 46, 101, 120, 97, 109, 112, 108, 101,
        46, 99, 111, 109] = true) ∧
    ∃ out, Header.encode_prefaced
        ⟨4040, some [102, 111, 111, 46, 98, 97, 114, 46, 101, 120, 97, 109, 112, 108, 101,
          46, 99, 111, 109]⟩ [] = .ok out ∧
      ∀ cap, Header.read_prefaced cap [out ++ [49, 50, 51, 52, 53]] =
        ⟨.ok (some ⟨4040, some [102, 111, 111, 46, 98, 97, 114, 46, 101, 120, 97, 109, 112,
          108, 101, 46, 99, 111, 109]⟩), [49, 50, 51, 52, 53], []⟩ :=
  ⟨⟨by decide, by decide⟩,
    c1_header_roundtrip 4040 _ [49, 50, 51, 52, 53] (by decide)
      (by intro n hn; cases hn; decide)⟩

end ConnHeader

namespace ConnHeader

/-- C2: for every chunked input stream whose byte sequence does not start
with the literal preface token, `DetectHeader::detect` classifies the
connection as `None(NoPreface)` and the replay buffer holds exactly the bytes
consumed from the stream — concatenating it with the unread remainder of the
stream reproduces the stream, and it is an initial segment of the stream. -/
theorem c2_no_preface (cs : List (List Nat))
    (h : cs.flatten.take PREFACE.length ≠ PREFACE) :
    ∃ buf rest, DetectHeader.detect cs = .ok (.absent .noPreface, buf, rest) ∧
      buf ++ rest.flatten = cs.flatten ∧ buf = cs.flatten.take buf.length := by
  rcases hp : readToLen cs [] PREFACE_LEN with ⟨buf1, rest1, flag⟩
  have hcons : buf1 ++ rest1.flatten = cs.flatten := by
    have := readToLen_conserve cs [] PREFACE_LEN
    rw [hp] at this
    simpa using this
  have hpre : buf1 = cs.flatten.take buf1.length := by
    rw [← hcons, List.take_left]
  have hread : Header.read_prefaced BUFFER_CAPACITY cs = ⟨.ok none, buf1, rest1⟩ := by
    cases flag with
    | false => simp [Header.read_prefaced, hp]
    | true =>
      have hge : PREFACE_LEN ≤ buf1.length := by
        have := readToLen_reached cs [] PREFACE_LEN
        rw [hp] at this
        exact this rfl
      have htake : buf1.take PREFACE.length = cs.flatten.take PREFACE.length := by
        rw [← hcons, List.take_append_of_le_length]
        rw [PREFACE_LEN_eq] at hge
        rw [PREFACE_length]
        omega
      have hne : buf1.take PREFACE.length ≠ PREFACE := by
        rw [htake]
        exact h
      simp [Header.read_prefaced, hp, hne]
  refine ⟨buf1, rest1, ?_, hcons, hpre⟩
  simp [DetectHeader.detect, hread]

/-- Witness for C2: the bytes `"GET /"` do not start with the preface. -/
theorem c2_no_preface_witness :
    [[71, 69, 84, 32, 47]].flatten.take PREFACE.length ≠ PREFACE ∧
    ∃ buf rest,
      DetectHeader.detect [[71, 69, 84, 32, 47]] = .ok (.absent .noPreface, buf, rest) ∧
      buf ++ rest.flatten = [[71, 69, 84, 32, 47]].flatten ∧
      buf = [[71, 69, 84, 32, 47]].flatten.take buf.length :=
  ⟨by decide, c2_no_preface [[71, 69, 84, 32, 47]] (by decide)⟩

/-- C3 counterexample: a header stream declaring a message length of 65520
bytes.  65520 exceeds the remaining buffer capacity at the length check
(`BUFFER_CAPACITY - PREFACE_LEN = 65508`), yet `read_prefaced` does not fail
with `InvalidData`: it proceeds to read the message and fails with
`UnexpectedEof` when the stream ends. -/
theorem c3_capacity_counterexample :
    BUFFER_CAPACITY - PREFACE_LEN < 65520 ∧
    (Header.read_prefaced BUFFER_CAPACITY [PREFACE ++ be32enc 65520]).result =
      .error .unexpectedEof ∧
    (Header.read_prefaced BUFFER_CAPACITY [PREFACE ++ be32enc 65520]).result ≠
      .error .invalidData := by
  decide

/-- C3 (amended): after the preface matches, `read_prefaced` fails fatally
with `InvalidData` — without attempting to read the message — exactly when
the declared length exceeds `buf.capacity() + PREFACE_LEN`, which for the
fresh `BUFFER_CAPACITY`-byte buffer is the full original allocation (65536),
i.e. the remaining capacity plus the 28 preface-and-length bytes already
consumed.  Declared lengths between the remaining capacity (65508) and 65536
are not rejected. -/
theorem c3_amended_invalid_data (L : Nat) (rest : List (List Nat))
    (hL : BUFFER_CAPACITY < L) (hL32 : L < 4294967296) :
    Header.read_prefaced BUFFER_CAPACITY ((PREFACE ++ be32enc L) :: rest) =
      ⟨.error .invalidData, [], rest⟩ := by
  set c := PREFACE ++ be32enc L with hc
  have hclen : c.length = 28 := by
    rw [hc]
    simp [PREFACE_length, be32enc_length]
  have h1 : readToLen (c :: rest) [] PREFACE_LEN = (c, rest, true) := by
    refine readToLen_single c rest PREFACE_LEN (by rw [PREFACE_LEN_eq]; omega) ?_
    rw [PREFACE_LEN_eq]
    omega
  have h2 : c.take PREFACE.length = PREFACE := rfl
  have h3 : (c.drop PREFACE.length).take 4 = be32enc L := rfl
  have h4 : c.drop PREFACE_LEN = [] := rfl
  have h5 : be32dec (be32enc L) = L := be32dec_encode _ hL32
  have hmax : max BUFFER_CAPACITY c.length = BUFFER_CAPACITY := by
    apply max_eq_left
    rw [hclen]
    simp [BUFFER_CAPACITY]
  have hcap : L > max BUFFER_CAPACITY c.length - PREFACE_LEN + PREFACE_LEN := by
    rw [hmax, PREFACE_LEN_eq]
    simp only [BUFFER_CAPACITY] at hL ⊢
    omega
  simp only [Header.read_prefaced, h1, h2, h3, h4, h5]
  simp [hcap]

/-- Witness for the amended C3 at declared length 70000. -/
theorem c3_amended_invalid_data_witness :
    BUFFER_CAPACITY < 70000 ∧ 70000 < 4294967296 ∧
    Header.read_prefaced BUFFER_CAPACITY [PREFACE ++ be32enc 70000] =
      ⟨.error .invalidData, [], []⟩ :=
  ⟨by decide, by decide, c3_amended_invalid_data 70000 [] (by decide) (by decide)⟩

/-- C4: when the stream delivers the preface and a declared length `L` within
the accepted range in its first read, but ends (EOF) before `L` message bytes
arrive, `read_prefaced` fails fatally with `UnexpectedEof`; it does not
return the "header absent" classification. -/
theorem c4_eof_mid_message (L : Nat) (m0 : List Nat) (rest : List (List Nat))
    (hL : L ≤ BUFFER_CAPACITY)
    (hshort : m0.length + rest.flatten.length < L) :
    (Header.read_prefaced BUFFER_CAPACITY ((PREFACE ++ be32enc L ++ m0) :: rest)).result =
      .error .unexpectedEof ∧
    (Header.read_prefaced BUFFER_CAPACITY ((PREFACE ++ be32enc L ++ m0) :: rest)).result ≠
      .ok none := by
  set c := PREFACE ++ be32enc L ++ m0 with hc
  have hclen : c.length = 28 + m0.length := by
    rw [hc]
    simp [PREFACE_length, be32enc_length]
    omega
  have h1 : readToLen (c :: rest) [] PREFACE_LEN = (c, rest, true) := by
    refine readToLen_single c rest PREFACE_LEN (by rw [PREFACE_LEN_eq]; omega) ?_
    rw [PREFACE_LEN_eq]
    omega
  have h2 : c.take PREFACE.length = PREFACE := rfl
  have h3 : (c.drop PREFACE.length).take 4 = be32enc L := rfl
  have h4 : c.drop PREFACE_LEN = m0 := rfl
  have h5 : be32dec (be32enc L) = L := by
    refine be32dec_encode _ ?_
    simp only [BUFFER_CAPACITY] at hL
    omega
  have hcap : ¬ (L > max BUFFER_CAPACITY c.length - PREFACE_LEN + PREFACE_LEN) := by
    have hmax : BUFFER_CAPACITY ≤ max BUFFER_CAPACITY c.length := le_max_left _ _
    rw [PREFACE_LEN_eq]
    simp only [BUFFER_CAPACITY] at hL hmax ⊢
    omega
  have h6 : (readToLen rest m0 L).2.2 = false := readToLen_eof rest m0 L hshort
  constructor
  · simp only [Header.read_prefaced, h1, h2, h3, h4, h5, h6]
    simp [hcap]
  · simp only [Header.read_prefaced, h1, h2, h3, h4, h5, h6]
    simp [hcap]

/-- Witness for C4: declared length 5, only 2 message bytes before EOF. -/
theorem c4_eof_mid_message_witness :
    5 ≤ BUFFER_CAPACITY ∧ [1, 2].length + ([] : List (List Nat)).flatten.length < 5 ∧
    ((Header.read_prefaced BUFFER_CAPACITY [PREFACE ++ be32enc 5 ++ [1, 2]]).result =
        .error .unexpectedEof ∧
      (Header.read_prefaced BUFFER_CAPACITY [PREFACE ++ be32enc 5 ++ [1, 2]]).result ≠
        .ok none) :=
  ⟨by decide, by decide, c4_eof_mid_message 5 [1, 2] [] (by decide) (by decide)⟩

/-- C9: for every constructible header (16-bit port, optional valid DNS-style
name) the encoded message length fits the 32-bit length field and
`encode_prefaced` into an empty buffer succeeds; the length guard (the
source's `assert!(len <= u32::MAX)`, modelled as an error) rejects exactly
the unrepresentable lengths, which are reachable only through pre-existing
buffer contents. -/
theorem c9_encode_length_guard (port : Nat) (name : Option (List Nat))
    (hp : port < 65536) (hn : ∀ n, name = some n → isDnsName n = true) :
    (Header.encodeMsg ⟨port, name⟩).length ≤ u32Max ∧
    (∃ out, Header.encode_prefaced ⟨port, name⟩ [] = .ok out) ∧
    (∀ buf : List Nat, u32Max < buf.length + (Header.encodeMsg ⟨port, name⟩).length →
      Header.encode_prefaced ⟨port, name⟩ buf = .error ()) := by
  have hlen : (Header.encodeMsg ⟨port, name⟩).length ≤ 260 :=
    Header.encodeMsg_length_le ⟨port, name⟩ hp hn
  have hfit : (Header.encodeMsg ⟨port, name⟩).length ≤ u32Max := by
    simp only [u32Max]
    omega
  refine ⟨hfit, ⟨_, Header.encode_prefaced_empty ⟨port, name⟩ hfit⟩, ?_⟩
  intro buf hbig
  have hfl := encode_prefaced_full_length ⟨port, name⟩ buf
  have hsub : (buf ++ PREFACE ++ [0, 0, 0, 0] ++ Header.encodeMsg ⟨port, name⟩).length -
      PREFACE_LEN = buf.length + (Header.encodeMsg ⟨port, name⟩).length := by
    rw [hfl, PREFACE_LEN_eq]
    omega
  simp only [Header.encode_prefaced, hsub]
  rw [if_neg (by omega)]

/-- Witness for C9 at port 4040 with no name. -/
theorem c9_encode_length_guard_witness :
    (Header.encodeMsg ⟨4040, none⟩).length ≤ u32Max ∧
    (∃ out, Header.encode_prefaced ⟨4040, none⟩ [] = .ok out) ∧
    (∀ buf : List Nat, u32Max < buf.length + (Header.encodeMsg ⟨4040, none⟩).length →
      Header.encode_prefaced ⟨4040, none⟩ buf = .error ()) :=
  c9_encode_length_guard 4040 none (by decide) (by intro n hn; cases hn)

end ConnHeader

namespace ConnHeader

/-- C10 counterexample: for port 4040 and no name, encoding into an empty
buffer back-fills the length at absolute offsets 24..28 with value
`final length - 28`; the bytes at offsets 25..29 do not hold
`final length - 29`, refuting the claimed offsets even in the empty-buffer
case. -/
theorem c10_backfill_counterexample :
    Header.encode_prefaced ⟨4040, none⟩ [] =
      .ok (PREFACE ++ [0, 0, 0, 3] ++ [8, 200, 31]) ∧
    ((PREFACE ++ [0, 0, 0, 3] ++ [8, 200, 31]).drop 25).take 4 ≠
      be32enc ((PREFACE ++ [0, 0, 0, 3] ++ [8, 200, 31]).length - 29) ∧
    ((PREFACE ++ [0, 0, 0, 3] ++ [8, 200, 31]).drop 24).take 4 =
      be32enc ((PREFACE ++ [0, 0, 0, 3] ++ [8, 200, 31]).length - 28) := by
  decide

/-- C10 (amended): `encode_prefaced` back-fills the 4-byte length field at
absolute byte offsets 24..28 of the destination buffer with value
`final buffer length - 28`, i.e. `buf.len() + encoded message length` —
overstating the message length by the number of pre-existing bytes; the
output equals the well-formed prefaced encoding of the header (preface, then
the encoded message's byte count, then the message) if and only if the
destination buffer was empty. -/
theorem c10_amended_backfill (port : Nat) (name : Option (List Nat)) (buf : List Nat)
    (hp : port < 65536) (hn : ∀ n, name = some n → isDnsName n = true)
    (hb : buf.length + (Header.encodeMsg ⟨port, name⟩).length ≤ u32Max) :
    ∃ out, Header.encode_prefaced ⟨port, name⟩ buf = .ok out ∧
      (out.drop 24).take 4 =
        be32enc (buf.length + (Header.encodeMsg ⟨port, name⟩).length) ∧
      (out = PREFACE ++ be32enc (Header.encodeMsg ⟨port, name⟩).length ++
          Header.encodeMsg ⟨port, name⟩ ↔ buf = []) := by
  set h : Header := ⟨port, name⟩ with hh
  set msg := Header.encodeMsg h with hm
  have heq := Header.encode_prefaced_eq h buf hb
  set full := buf ++ PREFACE ++ [0, 0, 0, 0] ++ msg with hf
  set out := full.take PREFACE.length ++ be32enc (buf.length + msg.length) ++
    full.drop PREFACE_LEN with ho
  have hflen : full.length = buf.length + 28 + msg.length := encode_prefaced_full_length h buf
  have htl : (full.take PREFACE.length).length = 24 := by
    rw [List.length_take, PREFACE_length, hflen]
    omega
  refine ⟨out, heq, ?_, ?_⟩
  · have hdrop : out.drop 24 = be32enc (buf.length + msg.length) ++ full.drop PREFACE_LEN := by
      rw [ho, List.append_assoc,
        show (24 : Nat) = (full.take PREFACE.length).length from htl.symm]
      exact List.drop_left _ _
    rw [hdrop]
    exact List.take_left' (be32enc_length _)
  · constructor
    · intro hout
      have h1 : out.length = buf.length + 28 + msg.length := by
        rw [ho]
        simp only [List.length_append, htl, be32enc_length, List.length_drop, hflen,
          PREFACE_LEN_eq]
        omega
      have h2 : (PREFACE ++ be32enc msg.length ++ msg).length = 28 + msg.length := by
        simp [PREFACE_length, be32enc_length]
        omega
      rw [hout, h2] at h1
      have hz : buf.length = 0 := by omega
      exact List.eq_nil_of_length_eq_zero hz
    · intro hbuf
      have hfit : msg.length ≤ u32Max := by
        rw [hbuf] at hb
        simpa using hb
      have heq0 := heq
      rw [hbuf] at heq0
      have he := Header.encode_prefaced_empty h hfit
      rw [he] at heq0
      injection heq0 with h'
      exact h'.symm

/-- Witness for the amended C10: port 4040, no name, one pre-existing byte. -/
theorem c10_amended_backfill_witness :
    (4040 < 65536 ∧
      ([0] : List Nat).length + (Header.encodeMsg ⟨4040, none⟩).length ≤ u32Max) ∧
    ∃ out, Header.encode_prefaced ⟨4040, none⟩ [0] = .ok out ∧
      (out.drop 24).take 4 =
        be32enc (([0] : List Nat).length + (Header.encodeMsg ⟨4040, none⟩).length) ∧
      (out = PREFACE ++ be32enc (Header.encodeMsg ⟨4040, none⟩).length ++
          Header.encodeMsg ⟨4040, none⟩ ↔ ([0] : List Nat) = []) :=
  ⟨⟨by decide, by decide⟩,
    c10_amended_backfill 4040 none [0] (by decide) (by intro n hn; cases hn) (by decide)⟩

end ConnHeader

namespace HttpDetect

/-- `b"PRI * HTTP/2.0\r\n\r\nSM\r\n\r\n"` (24 bytes). -/
def H2_PREFACE : List Nat :=
  [80, 82, 73, 32, 42, 32, 72, 84, 84, 80, 47, 50, 46, 48, 13, 10, 13, 10, 83, 77, 13, 10, 13, 10]

def H2_FIRST_LINE_LEN : Nat := 16

/-- The sniffer's configured capacity (`DetectHttp::new` always uses it); it
only sizes the initial allocation — nothing in the read loop consults it. -/
def BUFFER_CAPACITY : Nat := 8192

inductive Version
  | h2
  | http1
deriving DecidableEq

def is_h2_first_line (line : List Nat) : Bool :=
  line.length == H2_FIRST_LINE_LEN && line == H2_PREFACE.take H2_FIRST_LINE_LEN

inductive HRes
  | ok
  | tooManyHeaders
  | bad
deriving DecidableEq

/-- Modelled from the spec: `httparse` token characters (request method). -/
def isTokenChar (c : Nat) : Bool :=
  (48 ≤ c && c ≤ 57) || (65 ≤ c && c ≤ 90) || (97 ≤ c && c ≤ 122) ||
  c == 33 || c == 35 || c == 36 || c == 37 || c == 38 || c == 39 || c == 42 ||
  c == 43 || c == 45 || c == 46 || c == 94 || c == 95 || c == 96 || c == 124 || c == 126

/-- Modelled from the spec: `httparse` request-target characters (printable
ASCII except space). -/
def isUriChar (c : Nat) : Bool :=
  33 ≤ c && c ≤ 126

/-- Modelled from the spec: after a complete request line, `httparse` with a
zero-length header slice returns Ok on end of input (partial) or an empty
header section, and `TooManyHeaders` as soon as any header line starts. -/
def headersSection : List Nat → HRes
  | [] => .ok
  | [13] => .ok
  | 13 :: 10 :: _ => .ok
  | 13 :: _ => .bad
  | 10 :: _ => .ok
  | _ => .tooManyHeaders

/-- `"HTTP/1."` -/
def VERSION_STEM : List Nat := [72, 84, 84, 80, 47, 49, 46]

def afterVersionDigit : List Nat → HRes
  | [] => .ok
  | [13] => .ok
  | 13 :: 10 :: rest => headersSection rest
  | 10 :: rest => headersSection rest
  | _ => .bad

/-- Modelled from the spec: the HTTP/1.x version parse — `HTTP/1.` followed
by a digit; anything else (for example `HTTP/2.0`) is a version error. A
truncated input is a partial parse, hence Ok. -/
def parseVersion (r : List Nat) : HRes :=
  if r.length < VERSION_STEM.length then (if r = VERSION_STEM.take r.length then .ok else .bad)
  else if r.take VERSION_STEM.length = VERSION_STEM then
    match r.drop VERSION_STEM.length with
    | [] => .ok
    | d :: rest => if 48 ≤ d && d ≤ 57 then afterVersionDigit rest else .bad
  else .bad

/-- Modelled from the spec: the best-effort HTTP/1.x request-line parse
(`httparse::Request::parse` with zero header slots) — method token, space,
request target, space, version, line end, then the header section.  Running
out of input anywhere is a partial parse, hence Ok. -/
def parseHttp1 (s : List Nat) : HRes :=
  let m := s.takeWhile isTokenChar
  let r1 := s.dropWhile isTokenChar
  if m.isEmpty then (if s.isEmpty then .ok else .bad)
  else
    match r1 with
    | [] => .ok
    | 32 :: r2 =>
      let u := r2.takeWhile isUriChar
      let r3 := r2.dropWhile isUriChar
      if u.isEmpty then (if r2.isEmpty then .ok else .bad)
      else
        match r3 with
        | [] => .ok
        | 32 :: r4 => parseVersion r4
        | _ => .bad
    | _ => .bad

/-- The classification the source makes at a found line end: parse success or
`TooManyHeaders` means HTTP/1, any other parse failure means no protocol. -/
def lineDecision (buf : List Nat) : Option Version :=
  match parseHttp1 buf with
  | .ok => some .http1
  | .tooManyHeaders => some .http1
  | .bad => none

/-- The `for j in i..(buf.len() - 1)` scan: walk the tail of `buf` starting
at index `j` looking for `\r\n`.  On a hit, if the line so far is not the H2
first line the loop returns the request-line decision over the whole buffer;
if it is the H2 first line but H2 has been ruled out it returns "no
protocol"; otherwise the scan continues.  `none` means the loop fell through
without deciding. -/
def scanCrlf (buf : List Nat) (maybeH2 : Bool) : Nat → List Nat → Option (Option Version)
  | j, a :: b :: rest =>
    if a == 13 && b == 10 then
      if !(is_h2_first_line (buf.take (j + 2))) then some (lineDecision buf)
      else if !maybeH2 then some none
      else scanCrlf buf maybeH2 (j + 1) (b :: rest)
    else scanCrlf buf maybeH2 (j + 1) (b :: rest)
  | _, _ => none

/-- One iteration of `DetectHttp::detect`'s loop per chunk.  A zero-length
read (empty chunk or end of stream) classifies as `None` with everything
buffered.  Otherwise: append the chunk; confirm H2 on a full preface match
(immediately, consuming nothing further); rule H2 out on a 24-byte mismatch;
scan the new bytes for a line end; then advance the scan cursor by
`sz - 1`, backing up one byte if the last buffered byte is `\r`.  The
configured capacity is consulted nowhere — the buffer grows without bound. -/
def detectLoop : List (List Nat) → List Nat → Nat → Bool →
    Option Version × List Nat × List (List Nat)
  | [], buf, _, _ => (none, buf, [])
  | c :: rest, buf, i, maybeH2 =>
    if c.isEmpty then (none, buf, rest)
    else
      let buf2 := buf ++ c
      if maybeH2 && decide (H2_PREFACE.length ≤ buf2.length) &&
          (buf2.take H2_PREFACE.length == H2_PREFACE) then
        (some .h2, buf2, rest)
      else
        let m2 := maybeH2 && decide (buf2.length < H2_PREFACE.length)
        match scanCrlf buf2 m2 i (buf2.drop i) with
        | some k => (k, buf2, rest)
        | none =>
          let i1 := i + (c.length - 1)
          let i2 := if buf2.getD i1 0 == 13 then i1 - 1 else i1
          detectLoop rest buf2 i2 m2

/-- `DetectHttp::detect` (timeout not firing): classification, buffered
bytes (the replay prefix), and the unread chunks of the stream. -/
def DetectHttp.detect (cs : List (List Nat)) :
    Option Version × List Nat × List (List Nat) :=
  detectLoop cs [] 0 true

/-- `b"GET / HTTP/1.1\r\n"`. -/
def HTTP11_LINE : List Nat := [71, 69, 84, 32, 47, 32, 72, 84, 84, 80, 47, 49, 46, 49, 13, 10]

/-- `b" / HTTP/1.1\r\n"` — a request-line tail. -/
def SP_HTTP_TAIL : List Nat := [32, 47, 32, 72, 84, 84, 80, 47, 49, 46, 49, 13, 10]

end HttpDetect

namespace HttpDetect

theorem H2_PREFACE_length : H2_PREFACE.length = 24 := rfl

theorem replicate_97_ne_h2 (k : Nat) : List.replicate k 97 ≠ H2_PREFACE := by
  intro h
  cases k with
  | zero => simp [H2_PREFACE] at h
  | succ k' =>
    rw [List.replicate_succ] at h
    simp [H2_PREFACE] at h

theorem getD_replicate_lt (n i a d : Nat) (h : i < n) :
    (List.replicate n a).getD i d = a := by
  induction n generalizing i with
  | zero => omega
  | succ n ih =>
    rw [List.replicate_succ]
    cases i with
    | zero => rfl
    | succ i' => exact ih i' (by omega)

theorem scanCrlf_of_no_cr (buf : List Nat) (m2 : Bool) :
    ∀ (l : List Nat) (j : Nat), (∀ x ∈ l, x ≠ 13) → scanCrlf buf m2 j l = none := by
  intro l
  induction l with
  | nil => intro j _; rfl
  | cons a t ih =>
    intro j hx
    cases t with
    | nil => rfl
    | cons b t' =>
      have ha : (a == 13) = false := beq_eq_false_iff_ne.mpr (hx a (by simp))
      rw [scanCrlf, ha]
      simp only [Bool.false_and, Bool.false_eq_true, if_false]
      exact ih (j + 1) (fun x hmem => hx x (by simp [hmem]))

theorem scanCrlf_rep97_none (buf : List Nat) (m2 : Bool) (n j : Nat) :
    scanCrlf buf m2 j (List.replicate n 97) = none := by
  refine scanCrlf_of_no_cr buf m2 _ j ?_
  intro x hx
  rw [List.eq_of_mem_replicate hx]
  omega

theorem takeWhile_token_rep97 (n : Nat) (l : List Nat) :
    (List.replicate n 97 ++ l).takeWhile isTokenChar =
      List.replicate n 97 ++ l.takeWhile isTokenChar := by
  induction n with
  | zero => simp
  | succ n ih =>
    rw [List.replicate_succ, List.cons_append, List.takeWhile_cons]
    have h97 : isTokenChar 97 = true := rfl
    rw [if_pos h97, ih, List.cons_append]

theorem dropWhile_token_rep97 (n : Nat) (l : List Nat) :
    (List.replicate n 97 ++ l).dropWhile isTokenChar = l.dropWhile isTokenChar := by
  induction n with
  | zero => simp
  | succ n ih =>
    rw [List.replicate_succ, List.cons_append, List.dropWhile_cons]
    have h97 : isTokenChar 97 = true := rfl
    rw [if_pos h97, ih]

theorem parseHttp1_rep97_line (n : Nat) (hn : 1 ≤ n) :
    parseHttp1 (List.replicate n 97 ++ SP_HTTP_TAIL) = .ok := by
  obtain ⟨k, rfl⟩ : ∃ k, n = k + 1 := ⟨n - 1, by omega⟩
  simp only [parseHttp1, takeWhile_token_rep97, dropWhile_token_rep97]
  have htail : SP_HTTP_TAIL.takeWhile isTokenChar = [] := rfl
  have hdrop : SP_HTTP_TAIL.dropWhile isTokenChar = SP_HTTP_TAIL := rfl
  rw [htail, hdrop, List.append_nil]
  have hne : (List.replicate (k + 1) 97).isEmpty = false := by
    rw [List.replicate_succ]
    rfl
  rw [if_neg (by simp [hne])]
  rfl

theorem scanCrlf_sp_tail (buf : List Nat) (j : Nat)
    (h16 : is_h2_first_line (buf.take (j + 14)) = false) :
    scanCrlf buf false j (97 :: SP_HTTP_TAIL) = some (lineDecision buf) := by
  simp [SP_HTTP_TAIL, scanCrlf]
  intro habs
  rw [show j + 1 + 1 + 1 + 1 + 1 + 1 + 1 + 1 + 1 + 1 + 1 + 1 + 2 = j + 14 from by omega]
    at habs
  rw [h16] at habs
  exact absurd habs (by simp)

theorem detectLoop_overrun_step2 (n : Nat) (hn : 24 ≤ n) :
    detectLoop [SP_HTTP_TAIL] (List.replicate n 97) (n - 1) false =
      (some Version.http1, List.replicate n 97 ++ SP_HTTP_TAIL, []) := by
  have h16 : is_h2_first_line ((List.replicate n 97 ++ SP_HTTP_TAIL).take (n - 1 + 14))
      = false := by
    unfold is_h2_first_line
    have hl : ((List.replicate n 97 ++ SP_HTTP_TAIL).take (n - 1 + 14)).length = n + 13 := by
      rw [List.length_take]
      simp [SP_HTTP_TAIL]
      omega
    rw [hl]
    have : (n + 13 == H2_FIRST_LINE_LEN) = false := by
      refine beq_eq_false_iff_ne.mpr ?_
      simp [H2_FIRST_LINE_LEN]
      omega
    rw [this, Bool.false_and]
  have hdrop3 : (List.replicate n 97 ++ SP_HTTP_TAIL).drop (n - 1) = 97 :: SP_HTTP_TAIL := by
    rw [List.drop_append_of_le_length (by simp), List.drop_replicate,
      show n - (n - 1) = 1 from by omega]
    rfl
  have hscan2 := scanCrlf_sp_tail (List.replicate n 97 ++ SP_HTTP_TAIL) (n - 1) h16
  have hline : lineDecision (List.replicate n 97 ++ SP_HTTP_TAIL) = some Version.http1 := by
    unfold lineDecision
    rw [parseHttp1_rep97_line n (by omega)]
  simp only [detectLoop, show SP_HTTP_TAIL.isEmpty = false from rfl, Bool.false_eq_true,
    if_false, Bool.false_and, hdrop3, hscan2, hline]

theorem detectLoop_overrun_step1 (n : Nat) (hn : 24 ≤ n) :
    detectLoop [List.replicate n 97, SP_HTTP_TAIL] [] 0 true =
      detectLoop [SP_HTTP_TAIL] (List.replicate n 97) (n - 1) false := by
  have hne1 : (List.replicate n 97).isEmpty = false := by
    obtain ⟨k, rfl⟩ : ∃ k, n = k + 1 := ⟨n - 1, by omega⟩
    rw [List.replicate_succ]
    rfl
  have htk : (List.replicate n 97).take H2_PREFACE.length = List.replicate 24 97 := by
    rw [H2_PREFACE_length, List.take_replicate]
    congr 1
    omega
  have hbeq : (List.replicate 24 97 == H2_PREFACE) = false :=
    beq_eq_false_iff_ne.mpr (replicate_97_ne_h2 24)
  have hlt : decide (n < H2_PREFACE.length) = false :=
    decide_eq_false (by rw [H2_PREFACE_length]; omega)
  have hscan1 : scanCrlf (List.replicate n 97) false 0 ((List.replicate n 97).drop 0)
      = none := by
    rw [List.drop_zero]
    exact scanCrlf_rep97_none _ _ _ _
  have hgd : (List.replicate n 97).getD (n - 1) 0 = 97 :=
    getD_replicate_lt n (n - 1) 97 0 (by omega)
  simp only [detectLoop, hne1, Bool.false_eq_true, if_false, List.nil_append, htk, hbeq,
    Bool.and_false, hlt, Bool.true_and, hscan1, List.length_replicate, Nat.zero_add, hgd,
    show ((97 : Nat) == 13) = false from rfl, if_false]

theorem detect_overrun (n : Nat) (hn : 24 ≤ n) :
    DetectHttp.detect [List.replicate n 97, SP_HTTP_TAIL] =
      (some Version.http1, List.replicate n 97 ++ SP_HTTP_TAIL, []) := by
  unfold DetectHttp.detect
  rw [detectLoop_overrun_step1 n hn, detectLoop_overrun_step2 n hn]

end HttpDetect

namespace HttpDetect

/-- C5 (amended): the sniffer does not cap buffer growth at the configured
capacity.  Whatever amount has been buffered — including more than the
capacity — a zero-length read with no decision classifies as absent with
everything buffered; nothing in the loop consults the capacity. -/
theorem c5_absent_on_eof_any_size (n : Nat) :
    DetectHttp.detect [List.replicate n 97] = (none, List.replicate n 97, []) := by
  match n with
  | 0 => rfl
  | k + 1 =>
    have hne1 : (List.replicate (k + 1) 97).isEmpty = false := by
      rw [List.replicate_succ]
      rfl
    have hscan1 : ∀ m2 : Bool,
        scanCrlf (List.replicate (k + 1) 97) m2 0 ((List.replicate (k + 1) 97).drop 0)
          = none := by
      intro m2
      rw [List.drop_zero]
      exact scanCrlf_rep97_none _ _ _ _
    by_cases h24 : 24 ≤ k + 1
    · have htk : (List.replicate (k + 1) 97).take H2_PREFACE.length
          = List.replicate 24 97 := by
        rw [H2_PREFACE_length, List.take_replicate]
        congr 1
        omega
      have hbeq : (List.replicate 24 97 == H2_PREFACE) = false :=
        beq_eq_false_iff_ne.mpr (replicate_97_ne_h2 24)
      simp only [DetectHttp.detect, detectLoop, hne1, Bool.false_eq_true, if_false,
        List.nil_append, htk, hbeq, Bool.and_false, Bool.true_and, hscan1]
    · have hle : decide (H2_PREFACE.length ≤ (List.replicate (k + 1) 97).length) = false :=
        decide_eq_false (by simp [H2_PREFACE_length]; omega)
      simp only [DetectHttp.detect, detectLoop, hne1, Bool.false_eq_true, if_false,
        List.nil_append, hle, Bool.and_false, Bool.false_and, Bool.true_and, hscan1]

/-- C5 counterexample: 8192 bytes of `a` (no line end, H2 ruled out) do not
make the sniffer stop at the configured 8192-byte capacity with an absent
classification: it keeps reading, buffers 8205 bytes, and classifies the
stream as HTTP/1. -/
theorem c5_capacity_not_enforced :
    DetectHttp.detect [List.replicate 8192 97, SP_HTTP_TAIL] =
      (some Version.http1, List.replicate 8192 97 ++ SP_HTTP_TAIL, []) ∧
    BUFFER_CAPACITY < (List.replicate 8192 97 ++ SP_HTTP_TAIL).length := by
  refine ⟨detect_overrun 8192 (by omega), ?_⟩
  rw [List.length_append, List.length_replicate]
  norm_num [BUFFER_CAPACITY, SP_HTTP_TAIL]

/-- C6: a stream whose content is exactly the 24-byte H2 preface is
classified H2 with the preface as the replay prefix, and nothing further is
read from the stream (any remaining chunks stay unconsumed); the same holds
when the preface arrives in two reads split at byte 16. -/
theorem c6_h2_preface_split (rest : List (List Nat)) :
    DetectHttp.detect (H2_PREFACE :: rest) = (some Version.h2, H2_PREFACE, rest) ∧
    DetectHttp.detect (H2_PREFACE.take H2_FIRST_LINE_LEN ::
        H2_PREFACE.drop H2_FIRST_LINE_LEN :: rest) = (some Version.h2, H2_PREFACE, rest) :=
  ⟨rfl, rfl⟩

/-- C7: `GET / HTTP/1.1\r\n` is classified HTTP/1 with the replay buffer
equal to the whole line, both as a single read and split into two reads at
every interior byte offset (1..15) — in particular at offset 15, where the
CRLF straddles the two reads. -/
theorem c7_http1_line_any_split :
    DetectHttp.detect [HTTP11_LINE] = (some Version.http1, HTTP11_LINE, []) ∧
    ∀ s : Fin 15,
      DetectHttp.detect [HTTP11_LINE.take (s.val + 1), HTTP11_LINE.drop (s.val + 1)] =
        (some Version.http1, HTTP11_LINE, []) := by
  decide

end HttpDetect

namespace ApiResolve

/-- One wire message of the destination stream (`api::Update`): exactly one
of Add/Remove/NoEndpoints, or no recognized variant (`update: None`).
`α` is a wire weighted address, `σ` a wire socket address, `L` the
stream-level metric labels an Add carries. -/
inductive ApiUpdate (α σ L : Type)
  | add (addrs : List α) (labels : L)
  | remove (addrs : List σ)
  | noEndpoints (present : Bool)
  | unrecognized

/-- `core::resolve::Update`. -/
inductive Update (β τ : Type)
  | add (endpoints : List β)
  | remove (addrs : List τ)
  | reset (endpoints : List β)
  | doesNotExist
deriving DecidableEq

/-- The translation the `resolution` stream applies to one inbound message.
`pb::to_addr_meta` and `pb::to_sock_addr` (the `pb` module is not under
`src/`) are abstracted as the partial parses `f` (which also receives the
Add's metric labels) and `g`: an Add or Remove whose addresses all fail to
parse yields nothing, `NoEndpoints` maps on its `exists` flag, and a message
with no recognized variant is skipped. -/
def updatesOf {α σ L β τ : Type} (f : L → α → Option β) (g : σ → Option τ) :
    ApiUpdate α σ L → List (Update β τ)
  | .add addrs labels =>
    let addr_metas := addrs.filterMap (f labels)
    if addr_metas.isEmpty then [] else [.add addr_metas]
  | .remove addrs =>
    let sock_addrs := addrs.filterMap g
    if sock_addrs.isEmpty then [] else [.remove sock_addrs]
  | .noEndpoints true => [.reset []]
  | .noEndpoints false => [.doesNotExist]
  | .unrecognized => []

/-- `resolution`: the translated update sequence of a whole message stream
(the error-free path of the generator loop; transport errors, which
terminate the stream, are outside this model). -/
def resolution {α σ L β τ : Type} (f : L → α → Option β) (g : σ → Option τ)
    (msgs : List (ApiUpdate α σ L)) : List (Update β τ) :=
  msgs.flatMap (updatesOf f g)

/-- C8: the update translation of `resolution` — an Add or Remove with zero
valid addresses after filtering yields no update; `NoEndpoints{exists=true}`
yields exactly one `Reset []`; `NoEndpoints{exists=false}` yields exactly one
`DoesNotExist`; a message with no recognized variant yields no update and
does not terminate the stream (later messages are still translated); an Add
with at least one valid address yields exactly one Add holding exactly the
valid addresses. -/
theorem c8_resolution_translation {α σ L β τ : Type} (f : L → α → Option β)
    (g : σ → Option τ) :
    (∀ (labels : L) (addrs : List α), addrs.filterMap (f labels) = [] →
      resolution f g [.add addrs labels] = []) ∧
    (∀ addrs : List σ, addrs.filterMap g = [] → resolution f g [.remove addrs] = []) ∧
    resolution f g [.noEndpoints true] = [.reset []] ∧
    resolution f g [.noEndpoints false] = [.doesNotExist] ∧
    (∀ msgs : List (ApiUpdate α σ L),
      resolution f g (.unrecognized :: msgs) = resolution f g msgs) ∧
    (∀ (labels : L) (addrs : List α), addrs.filterMap (f labels) ≠ [] →
      resolution f g [.add addrs labels] = [.add (addrs.filterMap (f labels))]) := by
  refine ⟨?_, ?_, ?_, ?_, ?_, ?_⟩
  · intro labels addrs h
    simp [resolution, updatesOf, h]
  · intro addrs h
    simp [resolution, updatesOf, h]
  · simp [resolution, updatesOf]
  · simp [resolution, updatesOf]
  · intro msgs
    simp [resolution, updatesOf]
  · intro labels addrs h
    simp [resolution, updatesOf, h]

/-- Witness for C8 over concrete parses (`0` is malformed, everything else
is valid). -/
theorem c8_resolution_translation_witness :
    resolution (fun (_ : Unit) (n : Nat) => if n = 0 then none else some n)
        (fun (n : Nat) => if n = 0 then none else some n) [.add [0] ()] = [] ∧
    resolution (fun (_ : Unit) (n : Nat) => if n = 0 then none else some n)
        (fun (n : Nat) => if n = 0 then none else some n) [.remove [0, 0]] = [] ∧
    resolution (fun (_ : Unit) (n : Nat) => if n = 0 then none else some n)
        (fun (n : Nat) => if n = 0 then none else some n) [.noEndpoints true]
      = [.reset []] ∧
    resolution (fun (_ : Unit) (n : Nat) => if n = 0 then none else some n)
        (fun (n : Nat) => if n = 0 then none else some n) [.noEndpoints false]
      = [.doesNotExist] ∧
    resolution (fun (_ : Unit) (n : Nat) => if n = 0 then none else some n)
        (fun (n : Nat) => if n = 0 then none else some n)
        [.unrecognized, .noEndpoints false]
      = resolution (fun (_ : Unit) (n : Nat) => if n = 0 then none else some n)
          (fun (n : Nat) => if n = 0 then none else some n) [.noEndpoints false] ∧
    resolution (fun (_ : Unit) (n : Nat) => if n = 0 then none else some n)
        (fun (n : Nat) => if n = 0 then none else some n) [.add [0, 1, 2] ()]
      = [.add [1, 2]] := by
  obtain ⟨h1, h2, h3, h4, h5, h6⟩ :=
    c8_resolution_translation (fun (_ : Unit) (n : Nat) => if n = 0 then none else some n)
      (fun (n : Nat) => if n = 0 then none else some n)
  refine ⟨h1 () [0] (by decide), h2 [0, 0] (by decide), h3, h4,
    h5 [.noEndpoints false], ?_⟩
  rw [h6 () [0, 1, 2] (by decide)]
  decide

end ApiResolve
